import Mathlib

/-!
Verification of the label-placement engine in `src/components/OrganSvg.tsx`.

The source file contains two variants of the engine:
* variant A (curved connectors): `OrganMarkersContainer.adjustedPositions`,
  with the per-side solver `resolveSide` (constants `LABEL_HEIGHT = 6.5`,
  `MIN_VERTICAL_SPACING = 6`, `MIN_BOUND = 8`, `MAX_BOUND = 92`), the passes
  `applyForwardSpacing` / `applyBackwardSpacing`, the overflow / underflow
  shifts, a final per-entry clamp, and a final de-collision loop against the
  source marker.
* variant B (grid / elbow connectors): `gridPositions` with the per-side
  solver `adjustSide` (constants `cardHeight = 7`, `minVerticalGap = 4`,
  `topPadding = bottomPadding = 3`) and an overflow pull-up loop.

Numbers are modelled as exact rationals (the JavaScript source uses doubles;
none of the verified properties depends on floating-point rounding).
Mutation of the `positions` array is modelled by explicit state passing; the
in-place per-side writeback is modelled by processing each side's list
separately (all downstream steps are per-item, so array order is immaterial).
-/

/-! ## Variant A constants (lines 181-184 of the source) -/

def LABEL_HEIGHT : ℚ := 6.5

def MIN_VERTICAL_SPACING : ℚ := 6

def MIN_BOUND : ℚ := 8

def MAX_BOUND : ℚ := 92

/-- `clampCenterWithHeight` (source lines 186-191): clamp a center so the
extent `center ± height/2` fits in `[MIN_BOUND, MAX_BOUND]`, testing the low
bound first. -/
def clampCenterWithHeight (center height : ℚ) : ℚ :=
  if center - height / 2 < MIN_BOUND then MIN_BOUND + height / 2
  else if center + height / 2 > MAX_BOUND then MAX_BOUND - height / 2
  else center

/-! ## Height estimator (source lines 196-202)

`estimateLabelHeight` normalises whitespace with `replace(/\s+/g, ' ')`
followed by `trim()`, then adds `3.2` per estimated line of 34 characters.
Whitespace is modelled by `Char.isWhitespace` (space, tab, CR, LF). -/

/-- Collapse each maximal run of whitespace into a single space, as the
regex replacement `replace(/\s+/g, ' ')` does.  The boolean records whether
the previous character was part of a whitespace run. -/
def collapseAux : Bool → List Char → List Char
  | _, [] => []
  | prevWs, c :: rest =>
    if c.isWhitespace then
      if prevWs then collapseAux true rest
      else ' ' :: collapseAux true rest
    else c :: collapseAux false rest

def collapseWs (l : List Char) : List Char := collapseAux false l

/-- `String.prototype.trim`: drop whitespace at both ends. -/
def trimWs (l : List Char) : List Char :=
  ((l.dropWhile Char.isWhitespace).reverse.dropWhile Char.isWhitespace).reverse

/-- The variable `clean` of `estimateLabelHeight`:
`detail.replace(/\s+/g, ' ').trim()`. -/
def cleanOf (detail : String) : List Char :=
  trimWs (collapseWs detail.data)

/-- `estimateLabelHeight` (source lines 196-202). `(n + 33) / 34` in `ℕ` is
`ceil(n / 34)`. -/
def estimateLabelHeight : Option String → ℚ
  | none => LABEL_HEIGHT
  | some detail =>
    if cleanOf detail = [] then LABEL_HEIGHT
    else LABEL_HEIGHT + ((((cleanOf detail).length + 33) / 34 : ℕ) : ℚ) * 3.2

/-! ## Variant A solver state -/

/-- One entry of the `positions` array restricted to the fields the layout
touches: `top` is `originalPosition.top`, `h` is `labelHeight`, `y` is the
mutable `adjustedPosition.labelY`. -/
structure Pt where
  top : ℚ
  h : ℚ
  y : ℚ
deriving DecidableEq, Repr

/-- Initial assignment `labelY = clampCenterWithHeight(top, height)`
(source lines 224 and 251-253). -/
def initPt (top h : ℚ) : Pt :=
  ⟨top, h, clampCenterWithHeight top h⟩

/-- One step of `applyForwardSpacing` (source lines 258-264): if the edge
gap `currentTop - prevBottom` is below `s`, the current center is pushed
down by the missing amount, i.e. to exactly
`prev.y + (prev.h + b.h)/2 + s`; otherwise it is unchanged. -/
def fwdStep (s : ℚ) (prev b : Pt) : Pt :=
  { b with y := max b.y (prev.y + (prev.h + b.h) / 2 + s) }

def fwdAux (s : ℚ) : Pt → List Pt → List Pt
  | _, [] => []
  | prev, b :: rest => fwdStep s prev b :: fwdAux s (fwdStep s prev b) rest

/-- `applyForwardSpacing` (source lines 255-266): walk top to bottom,
pushing each entry down below its (already processed) predecessor. -/
def forwardPass (s : ℚ) : List Pt → List Pt
  | [] => []
  | a :: rest => a :: fwdAux s a rest

/-- One step of `applyBackwardSpacing` (source lines 271-277): pull the
current center up to at most `next.y - (next.h + b.h)/2 - s`. -/
def bwdStep (s : ℚ) (next b : Pt) : Pt :=
  { b with y := min b.y (next.y - (next.h + b.h) / 2 - s) }

def bwdAux (s : ℚ) : Pt → List Pt → List Pt
  | _, [] => []
  | next, b :: rest => bwdStep s next b :: bwdAux s (bwdStep s next b) rest

/-- `applyBackwardSpacing` walked bottom to top; `backAux` processes the
reversed list (source lines 268-279). -/
def backAux (s : ℚ) : List Pt → List Pt
  | [] => []
  | a :: rest => a :: bwdAux s a rest

def backwardPass (s : ℚ) (l : List Pt) : List Pt :=
  (backAux s l.reverse).reverse

/-- Uniform vertical shift of every center. -/
def shiftAll (d : ℚ) (l : List Pt) : List Pt :=
  l.map fun p => { p with y := p.y + d }

/-- Overflow check and shift (source lines 283-291): if the last entry's
bottom edge exceeds `MAX_BOUND`, shift every center up by the overflow and
re-run the backward pass. -/
def overflowStep (s : ℚ) (l : List Pt) : List Pt :=
  match l.getLast? with
  | none => l
  | some lastP =>
    if lastP.y + lastP.h / 2 > MAX_BOUND then
      backwardPass s (shiftAll (MAX_BOUND - (lastP.y + lastP.h / 2)) l)
    else l

/-- Underflow check and shift (source lines 293-301): if the first entry's
top edge is above `MIN_BOUND`, shift every center down by the underflow and
re-run the forward pass. -/
def underflowStep (s : ℚ) (l : List Pt) : List Pt :=
  match l.head? with
  | none => l
  | some firstP =>
    if firstP.y - firstP.h / 2 < MIN_BOUND then
      forwardPass s (shiftAll (MIN_BOUND - (firstP.y - firstP.h / 2)) l)
    else l

/-- The spacing `resolveSide` uses (source lines 238-249): the configured
`MIN_VERTICAL_SPACING`, or, when the side's total required height exceeds
the available span, a compressed value floored at `1.5`. -/
def spacingOf (hs : List ℚ) : ℚ :=
  if hs.sum + ((hs.length - 1 : ℕ) : ℚ) * MIN_VERTICAL_SPACING > MAX_BOUND - MIN_BOUND then
    max 1.5 ((MAX_BOUND - MIN_BOUND - hs.sum) / ((max 1 (hs.length - 1) : ℕ) : ℚ))
  else MIN_VERTICAL_SPACING

/-- Total required height of a side: sum of label heights plus a minimum
gap per adjacent pair (source lines 239-241). -/
def totalRequiredA (hs : List ℚ) : ℚ :=
  hs.sum + ((hs.length - 1 : ℕ) : ℚ) * MIN_VERTICAL_SPACING

/-- The spacing passes of `resolveSide`: forward pass, overflow shift with
backward pass, underflow shift with forward pass (source lines 281-301). -/
def passesA (s : ℚ) (l : List Pt) : List Pt :=
  underflowStep s (overflowStep s (forwardPass s l))

/-- The final per-entry clamp of `resolveSide` (source lines 303-306). -/
def clampStep (l : List Pt) : List Pt :=
  l.map fun p => { p with y := clampCenterWithHeight p.y p.h }

/-- The spacing passes applied to one side's `(top, height)` items, already
sorted by `top` (the state just before the final clamp of `resolveSide`). -/
def solvedA (items : List (ℚ × ℚ)) : List Pt :=
  passesA (spacingOf (items.map Prod.snd)) (items.map fun it => initPt it.1 it.2)

/-- `resolveSide` for one side's sorted `(top, height)` items
(source lines 231-306). -/
def resolveSideA (items : List (ℚ × ℚ)) : List Pt :=
  clampStep (solvedA items)

/-- The final de-collision with the source marker (source lines 311-320):
if the label center is within `LABEL_HEIGHT` of the source y, push it to
exactly `LABEL_HEIGHT + 1` away on the side it already diverged (downward
on an exact tie), then re-clamp. -/
def decollidePush (p : Pt) : ℚ :=
  if |p.y - p.top| < LABEL_HEIGHT then
    if p.y < p.top then p.top - LABEL_HEIGHT - 1 else p.top + LABEL_HEIGHT + 1
  else p.y

def decollideItem (p : Pt) : Pt :=
  { p with y := clampCenterWithHeight (decollidePush p) p.h }

def decollideStep (l : List Pt) : List Pt :=
  l.map decollideItem

/-! ## Variant A orchestration -/

/-- An active region as the container sees it: resolved source point
(percentage coordinates) and the optional detail text. -/
structure Region where
  left : ℚ
  top : ℚ
  detail : Option String
deriving DecidableEq

/-- A region before source-point resolution: `pos` is `markerPositions[key]`,
which may be absent (source lines 206-207). -/
structure RawRegion where
  pos : Option (ℚ × ℚ)
  detail : Option String
deriving DecidableEq

/-- The missing-position guard (source lines 204-207): regions whose id has
no resolved source point are skipped. -/
def collectA (rs : List RawRegion) : List Region :=
  rs.filterMap fun r => r.pos.map fun p => ⟨p.1, p.2, r.detail⟩

/-- Stable insertion used to model `Array.prototype.sort` (stable, ascending
by `originalPosition.top`, source line 234). -/
def insertTop (r : Region) : List Region → List Region
  | [] => [r]
  | x :: xs => if r.top < x.top then r :: x :: xs else x :: insertTop r xs

def sortByTop (l : List Region) : List Region :=
  l.foldr insertTop []

def regionItem (r : Region) : ℚ × ℚ :=
  (r.top, estimateLabelHeight r.detail)

/-- One side's sorted `(top, height)` items. -/
def sideItemsSortedA (rs : List Region) : List (ℚ × ℚ) :=
  (sortByTop rs).map regionItem

/-- The spacing passes applied to one side's regions (state before the final
clamp of `resolveSide`). -/
def solvedSideA (rs : List Region) : List Pt :=
  solvedA (sideItemsSortedA rs)

/-- The produced layout entries for one side of variant A: `resolveSide`
followed by the final de-collision loop.  `Pt.y` is the plan's `labelY`. -/
def planSideA (rs : List Region) : List Pt :=
  decollideStep (resolveSideA (sideItemsSortedA rs))

/-- Side assignment of variant A: `isRightSide = organCenterX > 55`
(source line 211).  The full plan solves the right side, then the left. -/
def planA (rs : List Region) : List Pt :=
  planSideA (rs.filter fun r => decide (55 < r.left)) ++
    planSideA (rs.filter fun r => !decide (55 < r.left))

/-- The whole variant A pipeline from unresolved regions. -/
def fullPlanA (raw : List RawRegion) : List Pt :=
  planA (collectA raw)

/-! ## Variant B (grid / elbow) solver, `gridPositions` (source lines 681-746) -/

def minCenterB : ℚ := 3 + 7 / 2

def maxCenterB : ℚ := 100 - 3 - 7 / 2

/-- `spacing = cardHeight + minVerticalGap = 7 + 4` (source line 696). -/
def spacingB : ℚ := 7 + 4

/-- `clampCenter` (source line 698). -/
def clampCenterB (v : ℚ) : ℚ :=
  min (max v minCenterB) maxCenterB

/-- `minAllowed = index === 0 ? minCenter : centers[index-1] + spacing`
(source line 706). -/
def minAllowedB : Option ℚ → ℚ
  | none => minCenterB
  | some p => p + spacingB

/-- The center-building fold of `adjustSide` (source lines 704-708):
`centers[i] = max(clampCenter(top_i), minAllowed)`. -/
def buildB : Option ℚ → List ℚ → List ℚ
  | _, [] => []
  | prev, t :: rest =>
    max (clampCenterB t) (minAllowedB prev) ::
      buildB (some (max (clampCenterB t) (minAllowedB prev))) rest

/-- `prevBound = i === 0 ? minCenter : centers[i-1] + spacing` (source
line 713); in the reversed list the predecessor is the next element. -/
def prevBoundB : List ℚ → ℚ
  | [] => minCenterB
  | p :: _ => p + spacingB

/-- The overflow pull-up loop of `adjustSide` (source lines 710-720),
processing the centers bottom-to-top (the argument list is reversed): each
entry may move up by at most its slack above `prevBound`, consuming the
remaining overflow. -/
def pullUpAux (ov : ℚ) : List ℚ → List ℚ
  | [] => []
  | c :: rest =>
    if ov ≤ 0 then c :: rest
    else if c - prevBoundB rest ≤ 0 then c :: pullUpAux ov rest
    else
      (c - min (c - prevBoundB rest) ov) ::
        pullUpAux (ov - min (c - prevBoundB rest) ov) rest

def pullUpB (ov : ℚ) (l : List ℚ) : List ℚ :=
  (pullUpAux ov l.reverse).reverse

def insertQ (a : ℚ) : List ℚ → List ℚ
  | [] => [a]
  | x :: xs => if a < x then a :: x :: xs else x :: insertQ a xs

def sortQ (l : List ℚ) : List ℚ :=
  l.foldr insertQ []

/-- `adjustSide` for one side's preferred tops (source lines 700-729):
sort ascending, build centers, then pull up on overflow. -/
def gridSideB (tops : List ℚ) : List ℚ :=
  match (buildB none (sortQ tops)).getLast? with
  | none => buildB none (sortQ tops)
  | some lastC =>
    if lastC > maxCenterB then pullUpB (lastC - maxCenterB) (buildB none (sortQ tops))
    else buildB none (sortQ tops)

/-! ## Connector path builders -/

/-- Variant A connector (source lines 370-386): a quadratic curve drawn from
the organ's source point to the label anchor, control point at the midpoint
offset horizontally by `-8` (right side) or `+8` (left side). -/
def quadPathA (organ : ℚ × ℚ) (labelX labelY : ℚ) (isRight : Bool) :
    (ℚ × ℚ) × (ℚ × ℚ) × (ℚ × ℚ) :=
  (organ,
   ((organ.1 + labelX) / 2 + (if isRight then -8 else 8), (organ.2 + labelY) / 2),
   (labelX, labelY))

/-- Variant A label anchor x (source line 213):
`labelX = isRight ? organX - 36 : organX + 36`. -/
def labelXA (organX : ℚ) (isRight : Bool) : ℚ :=
  if isRight then organX - 36 else organX + 36

/-- The horizontal control-point offset of variant A (source line 373). -/
def ctrlOffsetA (isRight : Bool) : ℚ :=
  if isRight then -8 else 8

/-- Variant B connector (source lines 795-797): a two-segment elbow
`M anchorX rowY L midX rowY L organX organY` from the label anchor through
the midpoint of the two x coordinates at the label's y, then to the organ. -/
def elbowPathB (organ : ℚ × ℚ) (anchorX rowY : ℚ) : List (ℚ × ℚ) :=
  [(anchorX, rowY), ((organ.1 + anchorX) / 2, rowY), organ]


/-! ## Helper lemmas: the clamp -/

lemma clampCWH_cases (c h : ℚ) :
    clampCenterWithHeight c h = MIN_BOUND + h / 2 ∨
      clampCenterWithHeight c h = MAX_BOUND - h / 2 ∨
      clampCenterWithHeight c h = c := by
  unfold clampCenterWithHeight
  split_ifs <;> simp

lemma clampCWH_between (c h : ℚ) (hh : h ≤ 84) :
    MIN_BOUND + h / 2 ≤ clampCenterWithHeight c h ∧
      clampCenterWithHeight c h ≤ MAX_BOUND - h / 2 := by
  unfold clampCenterWithHeight MIN_BOUND MAX_BOUND at *
  split_ifs with h1 h2 <;> constructor <;> linarith

lemma clampCWH_outer (c h : ℚ) (h0 : 0 ≤ h) (hh : h ≤ 168) :
    MIN_BOUND ≤ clampCenterWithHeight c h ∧ clampCenterWithHeight c h ≤ MAX_BOUND := by
  unfold clampCenterWithHeight MIN_BOUND MAX_BOUND at *
  split_ifs with h1 h2 <;> constructor <;> linarith

lemma clampCWH_eq_self (c h : ℚ) (h1 : MIN_BOUND + h / 2 ≤ c) (h2 : c ≤ MAX_BOUND - h / 2) :
    clampCenterWithHeight c h = c := by
  unfold clampCenterWithHeight MIN_BOUND MAX_BOUND at *
  split_ifs with ha hb
  · linarith
  · linarith
  · rfl

/-! ## Helper lemmas: the height estimator -/

lemma estimate_ge (d : Option String) : LABEL_HEIGHT ≤ estimateLabelHeight d := by
  cases d with
  | none => exact le_refl _
  | some s =>
    simp only [estimateLabelHeight]
    split_ifs
    · exact le_refl _
    · have h0 : (0 : ℚ) ≤ (((cleanOf s).length + 33) / 34 : ℕ) := Nat.cast_nonneg _
      have h1 : (0 : ℚ) ≤ (((cleanOf s).length + 33) / 34 : ℕ) * 3.2 :=
        mul_nonneg h0 (by norm_num)
      linarith

/-! ## Helper lemmas: the spacing passes of variant A -/

/-- The required center-to-center distance of `applyForwardSpacing`:
adjacent entries are in order and separated by half heights plus `s`. -/
def gapR (s : ℚ) (a b : Pt) : Prop :=
  a.y + (a.h + b.h) / 2 + s ≤ b.y

lemma fwdAux_chain (s : ℚ) :
    ∀ (rest : List Pt) (prev : Pt), List.Chain' (gapR s) (prev :: fwdAux s prev rest) := by
  intro rest
  induction rest with
  | nil => intro prev; exact List.chain'_singleton prev
  | cons b r ih =>
    intro prev
    rw [fwdAux]
    refine List.chain'_cons.2 ⟨?_, ih (fwdStep s prev b)⟩
    show prev.y + (prev.h + (fwdStep s prev b).h) / 2 + s ≤ (fwdStep s prev b).y
    exact le_max_right _ _

lemma forwardPass_chain (s : ℚ) (l : List Pt) : List.Chain' (gapR s) (forwardPass s l) := by
  cases l with
  | nil => exact List.chain'_nil
  | cons a rest => exact fwdAux_chain s rest a

lemma fwdAux_map_h (s : ℚ) :
    ∀ (rest : List Pt) (prev : Pt), (fwdAux s prev rest).map Pt.h = rest.map Pt.h := by
  intro rest
  induction rest with
  | nil => intro prev; rfl
  | cons b r ih =>
    intro prev
    rw [fwdAux]
    simp only [List.map_cons]
    rw [ih (fwdStep s prev b)]
    rfl

lemma forwardPass_map_h (s : ℚ) (l : List Pt) :
    (forwardPass s l).map Pt.h = l.map Pt.h := by
  cases l with
  | nil => rfl
  | cons a rest =>
    rw [forwardPass]
    simp only [List.map_cons]
    rw [fwdAux_map_h]

lemma forwardPass_head (s : ℚ) (x : Pt) (xs : List Pt) :
    ∃ t, forwardPass s (x :: xs) = x :: t :=
  ⟨fwdAux s x xs, rfl⟩

lemma bwdAux_chain (s : ℚ) :
    ∀ (rest : List Pt) (next : Pt),
      List.Chain' (fun a b => b.y + (b.h + a.h) / 2 + s ≤ a.y) (next :: bwdAux s next rest) := by
  intro rest
  induction rest with
  | nil => intro next; exact List.chain'_singleton next
  | cons b r ih =>
    intro next
    rw [bwdAux]
    refine List.chain'_cons.2 ⟨?_, ih (bwdStep s next b)⟩
    show (bwdStep s next b).y + ((bwdStep s next b).h + next.h) / 2 + s ≤ next.y
    have h1 : (bwdStep s next b).y ≤ next.y - (next.h + b.h) / 2 - s := min_le_right _ _
    have h2 : (bwdStep s next b).h = b.h := rfl
    rw [h2]
    linarith

lemma backAux_chain (s : ℚ) (l : List Pt) :
    List.Chain' (fun a b => b.y + (b.h + a.h) / 2 + s ≤ a.y) (backAux s l) := by
  cases l with
  | nil => exact List.chain'_nil
  | cons a rest => exact bwdAux_chain s rest a

lemma bwdAux_map_h (s : ℚ) :
    ∀ (rest : List Pt) (next : Pt), (bwdAux s next rest).map Pt.h = rest.map Pt.h := by
  intro rest
  induction rest with
  | nil => intro next; rfl
  | cons b r ih =>
    intro next
    rw [bwdAux]
    simp only [List.map_cons]
    rw [ih (bwdStep s next b)]
    rfl

lemma backAux_map_h (s : ℚ) (l : List Pt) :
    (backAux s l).map Pt.h = l.map Pt.h := by
  cases l with
  | nil => rfl
  | cons a rest =>
    rw [backAux]
    simp only [List.map_cons]
    rw [bwdAux_map_h]

lemma backwardPass_chain (s : ℚ) (l : List Pt) :
    List.Chain' (gapR s) (backwardPass s l) := by
  unfold backwardPass
  rw [List.chain'_reverse]
  exact (backAux_chain s l.reverse).imp fun a b hab => hab

lemma backwardPass_map_h (s : ℚ) (l : List Pt) :
    (backwardPass s l).map Pt.h = l.map Pt.h := by
  unfold backwardPass
  rw [List.map_reverse, backAux_map_h, List.map_reverse, List.reverse_reverse]

lemma shiftAll_chain {s : ℚ} {l : List Pt} (d : ℚ) (h : List.Chain' (gapR s) l) :
    List.Chain' (gapR s) (shiftAll d l) := by
  unfold shiftAll
  rw [List.chain'_map]
  exact h.imp fun a b hab => by
    show (a.y + d) + (a.h + b.h) / 2 + s ≤ b.y + d
    have := hab
    unfold gapR at this
    linarith

lemma shiftAll_map_h (d : ℚ) (l : List Pt) : (shiftAll d l).map Pt.h = l.map Pt.h := by
  unfold shiftAll
  simp

lemma overflowStep_chain {s : ℚ} {l : List Pt} (h : List.Chain' (gapR s) l) :
    List.Chain' (gapR s) (overflowStep s l) := by
  unfold overflowStep
  match hl : l.getLast? with
  | none => exact h
  | some lastP =>
    dsimp only
    split_ifs
    · exact backwardPass_chain s _
    · exact h

lemma overflowStep_map_h (s : ℚ) (l : List Pt) :
    (overflowStep s l).map Pt.h = l.map Pt.h := by
  unfold overflowStep
  match hl : l.getLast? with
  | none => rfl
  | some lastP =>
    dsimp only
    split_ifs
    · rw [backwardPass_map_h, shiftAll_map_h]
    · rfl

lemma underflowStep_chain {s : ℚ} {l : List Pt} (h : List.Chain' (gapR s) l) :
    List.Chain' (gapR s) (underflowStep s l) := by
  unfold underflowStep
  match hl : l.head? with
  | none => exact h
  | some firstP =>
    dsimp only
    split_ifs
    · exact forwardPass_chain s _
    · exact h

lemma underflowStep_map_h (s : ℚ) (l : List Pt) :
    (underflowStep s l).map Pt.h = l.map Pt.h := by
  unfold underflowStep
  match hl : l.head? with
  | none => rfl
  | some firstP =>
    dsimp only
    split_ifs
    · rw [forwardPass_map_h, shiftAll_map_h]
    · rfl

/-- After the spacing passes, adjacent entries are separated by at least
`(h₁ + h₂)/2 + s`, whatever the input state. -/
lemma passesA_chain (s : ℚ) (l : List Pt) : List.Chain' (gapR s) (passesA s l) :=
  underflowStep_chain (overflowStep_chain (forwardPass_chain s l))

lemma passesA_map_h (s : ℚ) (l : List Pt) : (passesA s l).map Pt.h = l.map Pt.h := by
  unfold passesA
  rw [underflowStep_map_h, overflowStep_map_h, forwardPass_map_h]

lemma solvedA_chain (items : List (ℚ × ℚ)) :
    List.Chain' (gapR (spacingOf (items.map Prod.snd))) (solvedA items) :=
  passesA_chain _ _

lemma solvedA_map_h (items : List (ℚ × ℚ)) :
    (solvedA items).map Pt.h = items.map Prod.snd := by
  unfold solvedA
  rw [passesA_map_h, List.map_map]
  simp [initPt, Function.comp]

/-! ## Helper lemmas: the spacing value -/

lemma spacingOf_ge (hs : List ℚ) : (3 / 2 : ℚ) ≤ spacingOf hs := by
  unfold spacingOf MIN_VERTICAL_SPACING
  split_ifs
  · have : (1.5 : ℚ) = 3 / 2 := by norm_num
    rw [← this]
    exact le_max_left _ _
  · norm_num

lemma spacingOf_eq_min (hs : List ℚ) (h : totalRequiredA hs ≤ 84) :
    spacingOf hs = MIN_VERTICAL_SPACING := by
  unfold totalRequiredA at h
  unfold spacingOf
  rw [if_neg]
  unfold MAX_BOUND MIN_BOUND
  push_neg
  linarith

/-! ## Chains, order and membership -/

lemma chain'_imp_mem {R S : Pt → Pt → Prop} :
    ∀ {l : List Pt}, (∀ a ∈ l, ∀ b ∈ l, R a b → S a b) → List.Chain' R l →
      List.Chain' S l := by
  intro l
  induction l with
  | nil => intro _ _; exact List.chain'_nil
  | cons a t ih =>
    intro himp hch
    rcases List.chain'_cons'.1 hch with ⟨hhead, htail⟩
    refine List.chain'_cons'.2 ⟨?_, ?_⟩
    · intro b hb
      refine himp a (by simp) b ?_ (hhead b hb)
      rcases t with _ | ⟨c, t'⟩
      · simp at hb
      · simp only [List.head?_cons, Option.mem_def, Option.some.injEq] at hb
        subst hb
        simp
    · refine ih ?_ htail
      intro x hx y hy
      exact himp x (by simp [hx]) y (by simp [hy])

lemma chainY_pairwise {l : List Pt} (h : List.Chain' (fun a b => a.y ≤ b.y) l) :
    List.Pairwise (fun a b => a.y ≤ b.y) l := by
  haveI : IsTrans Pt (fun a b => a.y ≤ b.y) := ⟨fun _ _ _ h1 h2 => le_trans h1 h2⟩
  exact List.chain'_iff_pairwise.mp h

/-! ## Helper lemmas: variant B (grid) solver -/

lemma buildB_head_ge (prev : Option ℚ) (t : ℚ) (rest : List ℚ) :
    ∃ c tl, buildB prev (t :: rest) = c :: tl ∧ minAllowedB prev ≤ c := by
  refine ⟨_, _, rfl, le_max_right _ _⟩

lemma buildB_chain : ∀ (prev : Option ℚ) (tops : List ℚ),
    List.Chain' (fun a b => a + spacingB ≤ b) (buildB prev tops) := by
  intro prev tops
  induction tops generalizing prev with
  | nil => exact List.chain'_nil
  | cons t rest ih =>
    rw [buildB]
    refine List.chain'_cons'.2 ⟨?_, ih _⟩
    intro z hz
    rcases rest with _ | ⟨t', rest'⟩
    · simp [buildB] at hz
    · obtain ⟨c, tl, hc, hge⟩ :=
        buildB_head_ge (some (max (clampCenterB t) (minAllowedB prev))) t' rest'
      rw [hc] at hz
      simp only [List.head?_cons, Option.mem_def, Option.some.injEq] at hz
      subst hz
      exact hge

lemma pullUpAux_pointwise : ∀ (ov : ℚ) (l : List ℚ),
    List.Forall₂ (fun a b => a ≤ b) (pullUpAux ov l) l := by
  intro ov l
  induction l generalizing ov with
  | nil => rw [pullUpAux]; exact List.Forall₂.nil
  | cons c rest ih =>
    rw [pullUpAux]
    split_ifs with h1 h2
    · exact List.forall₂_same.2 fun x _ => le_refl x
    · exact List.Forall₂.cons (le_refl c) (ih ov)
    · refine List.Forall₂.cons ?_ (ih _)
      have hmin : 0 ≤ min (c - prevBoundB rest) ov := by
        push_neg at h1 h2
        exact le_min (le_of_lt h2) (le_of_lt h1)
      linarith

lemma pullUpAux_head_le (ov : ℚ) (x : ℚ) (xs : List ℚ) :
    ∃ x' tl, pullUpAux ov (x :: xs) = x' :: tl ∧ x' ≤ x := by
  have h := pullUpAux_pointwise ov (x :: xs)
  rcases he : pullUpAux ov (x :: xs) with _ | ⟨x', tl⟩
  · rw [he] at h; cases h
  · rw [he] at h
    cases h with
    | cons hx htl => exact ⟨x', tl, rfl, hx⟩

lemma pullUpAux_chain : ∀ (ov : ℚ) (l : List ℚ),
    List.Chain' (fun a b => b + spacingB ≤ a) l →
      List.Chain' (fun a b => b + spacingB ≤ a) (pullUpAux ov l) := by
  intro ov l
  induction l generalizing ov with
  | nil => intro _; rw [pullUpAux]; exact List.chain'_nil
  | cons c rest ih =>
    intro hch
    rcases List.chain'_cons'.1 hch with ⟨hhead, htail⟩
    rw [pullUpAux]
    split_ifs with h1 h2
    · exact hch
    · refine List.chain'_cons'.2 ⟨?_, ih ov htail⟩
      intro z hz
      rcases rest with _ | ⟨p, rest'⟩
      · rw [pullUpAux] at hz; simp at hz
      · obtain ⟨p', tl, hp, hle⟩ := pullUpAux_head_le ov p rest'
        rw [hp] at hz
        simp only [List.head?_cons, Option.mem_def, Option.some.injEq] at hz
        subst hz
        have := hhead p (by simp)
        linarith
    · refine List.chain'_cons'.2 ⟨?_, ih _ htail⟩
      intro z hz
      rcases rest with _ | ⟨p, rest'⟩
      · rw [pullUpAux] at hz; simp at hz
      · obtain ⟨p', tl, hp, hle⟩ :=
          pullUpAux_head_le (ov - min (c - prevBoundB (p :: rest')) ov) p rest'
        rw [hp] at hz
        simp only [List.head?_cons, Option.mem_def, Option.some.injEq] at hz
        subst hz
        have h3 := min_le_left (c - (p + spacingB)) ov
        show p' + spacingB ≤ c - min (c - (p + spacingB)) ov
        linarith

lemma pullUpB_chain (ov : ℚ) (l : List ℚ)
    (h : List.Chain' (fun a b => a + spacingB ≤ b) l) :
    List.Chain' (fun a b => a + spacingB ≤ b) (pullUpB ov l) := by
  unfold pullUpB
  rw [List.chain'_reverse]
  have h1 : List.Chain' (fun a b => b + spacingB ≤ a) l.reverse := by
    rw [List.chain'_reverse]
    exact h.imp fun a b hab => hab
  exact (pullUpAux_chain ov l.reverse h1).imp fun a b hab => hab

/-- Every adjacent pair of produced grid-variant centers is separated by at
least `spacingB`, before and after the overflow pull-up. -/
lemma gridSideB_chain (tops : List ℚ) :
    List.Chain' (fun a b => a + spacingB ≤ b) (gridSideB tops) := by
  unfold gridSideB
  match hlast : (buildB none (sortQ tops)).getLast? with
  | none => exact buildB_chain none (sortQ tops)
  | some lastC =>
    dsimp only
    split_ifs
    · exact pullUpB_chain _ _ (buildB_chain none (sortQ tops))
    · exact buildB_chain none (sortQ tops)

/-! ## Helper lemmas: heights through the pipeline -/

lemma estimateLabelHeight_none : estimateLabelHeight none = LABEL_HEIGHT := rfl

lemma clampStep_map_h (l : List Pt) : (clampStep l).map Pt.h = l.map Pt.h := by
  unfold clampStep
  rw [List.map_map]
  rfl

lemma decollideStep_map_h (l : List Pt) : (decollideStep l).map Pt.h = l.map Pt.h := by
  unfold decollideStep
  rw [List.map_map]
  rfl

lemma sideItems_snd_ge (rs : List Region) :
    ∀ h ∈ (sideItemsSortedA rs).map Prod.snd, LABEL_HEIGHT ≤ h := by
  intro h hh
  unfold sideItemsSortedA at hh
  rw [List.map_map] at hh
  obtain ⟨r, _, hr⟩ := List.mem_map.1 hh
  rw [← hr]
  exact estimate_ge r.detail

lemma solvedSideA_h_ge (rs : List Region) : ∀ p ∈ solvedSideA rs, LABEL_HEIGHT ≤ p.h := by
  intro p hp
  have hmem : p.h ∈ (solvedSideA rs).map Pt.h := List.mem_map_of_mem Pt.h hp
  unfold solvedSideA at hmem
  rw [solvedA_map_h] at hmem
  exact sideItems_snd_ge rs p.h hmem

lemma planSideA_h_ge (rs : List Region) : ∀ p ∈ planSideA rs, LABEL_HEIGHT ≤ p.h := by
  intro p hp
  have hmem : p.h ∈ (planSideA rs).map Pt.h := List.mem_map_of_mem Pt.h hp
  unfold planSideA resolveSideA at hmem
  rw [decollideStep_map_h, clampStep_map_h] at hmem
  rw [show solvedA (sideItemsSortedA rs) = solvedSideA rs from rfl, solvedSideA] at hmem
  rw [solvedA_map_h] at hmem
  exact sideItems_snd_ge rs p.h hmem

lemma planSideA_mem (rs : List Region) (p : Pt) (hp : p ∈ planSideA rs) :
    ∃ q, p = decollideItem q := by
  unfold planSideA at hp
  obtain ⟨q, _, hq⟩ := List.mem_map.1 hp
  exact ⟨q, hq.symm⟩

/-! ## Helper lemmas: degenerate inputs -/

lemma collectA_filter (raw : List RawRegion) :
    collectA raw = collectA (raw.filter fun r => r.pos.isSome) := by
  induction raw with
  | nil => rfl
  | cons r t ih =>
    cases hpos : r.pos with
    | none =>
      unfold collectA at *
      rw [List.filterMap_cons, List.filter_cons]
      simp only [hpos, Option.map_none', Option.isSome_none, Bool.false_eq_true, if_false]
      exact ih
    | some pv =>
      unfold collectA at *
      rw [List.filterMap_cons, List.filter_cons]
      simp only [hpos, Option.map_some', Option.isSome_some, if_true, List.filterMap_cons]
      rw [ih]

lemma resolveSideA_singleton (t h : ℚ) (hh : h ≤ 84) :
    resolveSideA [(t, h)] = [⟨t, h, clampCenterWithHeight t h⟩] := by
  obtain ⟨h1, h2⟩ := clampCWH_between t h hh
  have hfwd : ∀ s : ℚ, forwardPass s [initPt t h] = [initPt t h] := fun s => rfl
  have hover : ∀ s : ℚ, overflowStep s [initPt t h] = [initPt t h] := by
    intro s
    unfold overflowStep
    rw [show ([initPt t h] : List Pt).getLast? = some (initPt t h) from rfl]
    dsimp only
    rw [if_neg]
    show ¬MAX_BOUND < (initPt t h).y + (initPt t h).h / 2
    have : (initPt t h).y = clampCenterWithHeight t h := rfl
    rw [this]
    show ¬MAX_BOUND < clampCenterWithHeight t h + h / 2
    push_neg
    linarith
  have hunder : ∀ s : ℚ, underflowStep s [initPt t h] = [initPt t h] := by
    intro s
    unfold underflowStep
    rw [show ([initPt t h] : List Pt).head? = some (initPt t h) from rfl]
    dsimp only
    rw [if_neg]
    show ¬(initPt t h).y - (initPt t h).h / 2 < MIN_BOUND
    have : (initPt t h).y = clampCenterWithHeight t h := rfl
    rw [this]
    show ¬clampCenterWithHeight t h - h / 2 < MIN_BOUND
    push_neg
    linarith
  unfold resolveSideA solvedA passesA
  rw [show ([(t, h)].map fun it => initPt it.1 it.2) = [initPt t h] from rfl]
  rw [hfwd, hover, hunder]
  unfold clampStep
  rw [List.map_singleton]
  have hcc : clampCenterWithHeight (clampCenterWithHeight t h) h = clampCenterWithHeight t h :=
    clampCWH_eq_self _ h h1 h2
  show [{ initPt t h with y := clampCenterWithHeight (initPt t h).y (initPt t h).h }] = _
  have hy : (initPt t h).y = clampCenterWithHeight t h := rfl
  have hhh : (initPt t h).h = h := rfl
  rw [hy, hhh, hcc]
  rfl

/-! ## Helper lemmas: whitespace-free text -/

lemma collapseAux_no_ws : ∀ (l : List Char) (b : Bool),
    (∀ c ∈ l, c.isWhitespace = false) → collapseAux b l = l := by
  intro l
  induction l with
  | nil => intro b _; rfl
  | cons c t ih =>
    intro b hws
    rw [collapseAux]
    rw [hws c (by simp)]
    simp only [Bool.false_eq_true, if_false]
    rw [ih false fun x hx => hws x (by simp [hx])]

lemma trimWs_no_ws (l : List Char) (hws : ∀ c ∈ l, c.isWhitespace = false) :
    trimWs l = l := by
  have hdrop : ∀ m : List Char, (∀ c ∈ m, c.isWhitespace = false) → m.dropWhile Char.isWhitespace = m := by
    intro m hm
    cases m with
    | nil => rfl
    | cons c t =>
      rw [List.dropWhile_cons]
      rw [hm c (by simp)]
      simp
  unfold trimWs
  rw [hdrop l hws]
  rw [hdrop l.reverse fun c hc => hws c (List.mem_reverse.1 hc)]
  exact List.reverse_reverse l

/-! ## Claims -/

/-- Claim C10: in the grid/elbow variant's solver (`adjustSide`, embedded as
`gridSideB`), for every input set of same-side preferred tops, the final
centers of every adjacent pair are at least `cardHeight + minVerticalGap`
(7 + 4 = 11 percentage units) apart, unconditionally: the center-building
fold enforces `centers[i] ≥ centers[i-1] + spacing` and the overflow
pull-up only moves an entry up within its slack above
`centers[i-1] + spacing`, so the gap is preserved (at the expense of the
bottom bound). -/
theorem C10_grid_min_gap (tops : List ℚ) :
    List.Chain' (fun a b => a + (7 + 4) ≤ b) (gridSideB tops) :=
  gridSideB_chain tops

/-- Claim C6: in the forward pass (`applyForwardSpacing`, embedded as
`forwardPass`), an adjacent pair whose center distance is below the
required spacing `(hPrev + hCurr)/2 + minGap` has the current center pushed
down to exactly `centerPrev + (hPrev + hCurr)/2 + minGap`; in particular
the grid variant gives two items with preferred centers 10 and 12, height 7
each and `minGap` 4 the centers `[10, 21]`. -/
theorem C6_forward_push :
    (∀ (s : ℚ) (a b : Pt) (rest : List Pt), b.y - a.y < (a.h + b.h) / 2 + s →
        forwardPass s (a :: b :: rest) =
          a :: forwardPass s ({ b with y := a.y + (a.h + b.h) / 2 + s } :: rest)) ∧
      gridSideB [10, 12] = [10, 21] := by
  constructor
  · intro s a b rest hlt
    have hstep : fwdStep s a b = { b with y := a.y + (a.h + b.h) / 2 + s } := by
      unfold fwdStep
      rw [max_eq_right (le_of_lt (by linarith))]
    rw [forwardPass, forwardPass, fwdAux, hstep]
  · norm_num [gridSideB, buildB, sortQ, insertQ, clampCenterB, minAllowedB, minCenterB,
      maxCenterB, spacingB, pullUpB, pullUpAux, prevBoundB, max_def, min_def]

/-- Witness for C6: two items at centers 10 and 12 with height 7, gap 4 are
`2 < 11` apart, so the second is pushed to `10 + 7 + 4 = 21`. -/
theorem C6_witness :
    forwardPass 4 [⟨10, 7, 10⟩, ⟨12, 7, 12⟩] = [⟨10, 7, 10⟩, ⟨12, 7, 21⟩] := by
  have h := C6_forward_push.1 4 ⟨10, 7, 10⟩ ⟨12, 7, 12⟩ [] (by norm_num)
  rw [h]
  norm_num [forwardPass, fwdAux, Pt.mk.injEq]

/-- Claim C7: the height estimator returns `baseLabelHeight` (6.5) for an
absent, empty or whitespace-only text, and otherwise
`baseLabelHeight + ceil(len(normalized)/34) * 3.2`, never below
`baseLabelHeight`; a text of length 70 yields `ceil(70/34) = 3` lines. -/
theorem C7_height_estimator :
    estimateLabelHeight none = LABEL_HEIGHT ∧
      (∀ s : String, cleanOf s = [] → estimateLabelHeight (some s) = LABEL_HEIGHT) ∧
      (∀ s : String, cleanOf s ≠ [] →
        estimateLabelHeight (some s) =
          LABEL_HEIGHT + ((((cleanOf s).length + 33) / 34 : ℕ) : ℚ) * 3.2) ∧
      (∀ d : Option String, LABEL_HEIGHT ≤ estimateLabelHeight d) ∧
      estimateLabelHeight (some (String.mk (List.replicate 70 'a'))) =
        LABEL_HEIGHT + 3 * 3.2 := by
  refine ⟨rfl, ?_, ?_, estimate_ge, ?_⟩
  · intro s hs
    simp only [estimateLabelHeight]
    rw [if_pos hs]
  · intro s hs
    simp only [estimateLabelHeight]
    rw [if_neg hs]
  · have hclean : cleanOf (String.mk (List.replicate 70 'a')) = List.replicate 70 'a' := by
      show trimWs (collapseWs (List.replicate 70 'a')) = List.replicate 70 'a'
      have hws : ∀ c ∈ List.replicate 70 'a', c.isWhitespace = false := by
        intro c hc
        rw [List.eq_of_mem_replicate hc]
        rfl
      unfold collapseWs
      rw [collapseAux_no_ws _ _ hws, trimWs_no_ws _ hws]
    simp only [estimateLabelHeight, hclean]
    rw [if_neg (by simp), List.length_replicate]
    norm_num

/-- Witness for C7: a whitespace-only text gets the base height, and a
two-character text gets one extra line. -/
theorem C7_witness :
    estimateLabelHeight (some " ") = LABEL_HEIGHT ∧
      estimateLabelHeight (some "ab") =
        LABEL_HEIGHT + ((((cleanOf "ab").length + 33) / 34 : ℕ) : ℚ) * 3.2 :=
  ⟨C7_height_estimator.2.1 " " (by decide), C7_height_estimator.2.2.1 "ab" (by decide)⟩

/-- Claim C9 (amended): every connector path connects the label anchor and
the region's source point — the curved variant is drawn from the source to
the anchor, with a quadratic control point at the path midpoint offset
horizontally toward the label's side; the grid variant is a two-segment
elbow from the anchor that runs horizontally to the midpoint x at the
label's y, then diagonally to the source. -/
theorem C9_connector_amended :
    (∀ (organ : ℚ × ℚ) (labelX labelY : ℚ) (r : Bool),
        (quadPathA organ labelX labelY r).1 = organ ∧
          (quadPathA organ labelX labelY r).2.2 = (labelX, labelY) ∧
          (quadPathA organ labelX labelY r).2.1 =
            ((organ.1 + labelX) / 2 + ctrlOffsetA r, (organ.2 + labelY) / 2)) ∧
      (∀ (organX : ℚ) (r : Bool), 0 < (labelXA organX r - organX) * ctrlOffsetA r) ∧
      (∀ (organ : ℚ × ℚ) (anchorX rowY : ℚ),
        elbowPathB organ anchorX rowY =
          [(anchorX, rowY), ((organ.1 + anchorX) / 2, rowY), organ]) := by
  refine ⟨?_, ?_, fun organ anchorX rowY => rfl⟩
  · intro organ labelX labelY r
    cases r <;> exact ⟨rfl, rfl, rfl⟩
  · intro organX r
    cases r <;> norm_num [labelXA, ctrlOffsetA]

/-- Counterexample for C9 as stated: the curved connector starts at the
organ's source point `(60, 40)`, not at the label anchor `(24, 50)`, and
the elbow's first segment joins `(27, 50)` to `(43.5, 50)` — equal y,
different x, so it is horizontal, not vertical. -/
theorem C9_counterexample :
    (quadPathA (60, 40) (labelXA 60 true) 50 true).1 = ((60 : ℚ), (40 : ℚ)) ∧
      labelXA 60 true = 24 ∧
      ((60 : ℚ), (40 : ℚ)) ≠ ((24 : ℚ), (50 : ℚ)) ∧
      elbowPathB (60, 40) 27 50 = [(27, 50), (87 / 2, 50), (60, 40)] ∧
      (27 : ℚ) ≠ 87 / 2 := by
  refine ⟨rfl, by norm_num [labelXA], by norm_num [Prod.mk.injEq], ?_, by norm_num⟩
  norm_num [elbowPathB, Prod.mk.injEq]

/-- Claim C1 (amended): after the spacing passes of `resolveSide` (before
its final per-entry clamp and before the final source de-collision), every
adjacent same-side pair satisfies
`centerCurr - centerPrev ≥ (hPrev + hCurr)/2 + s`, where `s` is the
configured gap 6 when the side's total required height fits the span and
otherwise the compressed spacing, which never drops below `1.5 ≥ 0`.  (The
final clamp and the de-collision step may afterwards bring adjacent labels
closer, even in the non-degraded case — see the counterexample.) -/
theorem C1_spacing_amended (items : List (ℚ × ℚ)) :
    (totalRequiredA (items.map Prod.snd) ≤ MAX_BOUND - MIN_BOUND →
        List.Chain' (fun a b => a.y + (a.h + b.h) / 2 + MIN_VERTICAL_SPACING ≤ b.y)
          (solvedA items)) ∧
      List.Chain' (fun a b => a.y + (a.h + b.h) / 2 + spacingOf (items.map Prod.snd) ≤ b.y)
        (solvedA items) ∧
      (3 / 2 : ℚ) ≤ spacingOf (items.map Prod.snd) := by
  refine ⟨?_, solvedA_chain items, spacingOf_ge _⟩
  intro htot
  have h84 : totalRequiredA (items.map Prod.snd) ≤ 84 := by
    unfold MAX_BOUND MIN_BOUND at htot
    linarith
  have hs := spacingOf_eq_min (items.map Prod.snd) h84
  have hch := solvedA_chain items
  rw [hs] at hch
  exact hch

/-- Witness for C1: a single item of height 6.5 fits the span. -/
theorem C1_witness :
    List.Chain' (fun a b => a.y + (a.h + b.h) / 2 + MIN_VERTICAL_SPACING ≤ b.y)
      (solvedA [(10, 13 / 2)]) :=
  (C1_spacing_amended [(10, 13 / 2)]).1
    (by norm_num [totalRequiredA, MIN_VERTICAL_SPACING, MAX_BOUND, MIN_BOUND])

/-- Counterexample for C1 as stated: three items at tops 8, 89 and 90 with
height 6.5 each require a total of 31.5 ≤ 84, yet in the produced plan the
last two label centers are only 1 apart, far below the required
`6.5 + 6 = 12.5`: the overflow/underflow interplay leaves the last center
past the bound, the final clamp pulls it back onto its neighbour, and the
de-collision step keeps them 1 apart. -/
theorem C1_counterexample :
    totalRequiredA
        ((sideItemsSortedA [⟨30, 8, none⟩, ⟨30, 89, none⟩, ⟨30, 90, none⟩]).map Prod.snd) ≤
      MAX_BOUND - MIN_BOUND ∧
      (planSideA [⟨30, 8, none⟩, ⟨30, 89, none⟩, ⟨30, 90, none⟩]).map Pt.y =
        [31 / 2, 163 / 2, 165 / 2] ∧
      (165 / 2 : ℚ) - 163 / 2 < (13 / 2 + 13 / 2) / 2 + MIN_VERTICAL_SPACING := by
  refine ⟨?_, ?_, by norm_num [MIN_VERTICAL_SPACING]⟩
  · norm_num [totalRequiredA, sideItemsSortedA, sortByTop, insertTop, regionItem,
      estimateLabelHeight_none, LABEL_HEIGHT, MIN_VERTICAL_SPACING, MAX_BOUND, MIN_BOUND]
  · norm_num [planSideA, resolveSideA, solvedA, passesA, sideItemsSortedA, sortByTop, insertTop,
      regionItem, estimateLabelHeight_none, spacingOf, clampStep, decollideStep, decollideItem,
      decollidePush, underflowStep, overflowStep, forwardPass, fwdAux, fwdStep, backAux, bwdAux,
      bwdStep, backwardPass, shiftAll, initPt, clampCenterWithHeight, LABEL_HEIGHT,
      MIN_VERTICAL_SPACING, MIN_BOUND, MAX_BOUND, max_def, min_def, abs_lt]

/-- Claim C2 (amended): order preservation holds for the grid variant's
produced centers and, in the curved variant, for the state after the
spacing passes (before the final per-entry clamp and source de-collision):
the sorted-by-`preferredCenter` list has nondecreasing label centers.  (The
curved variant's final clamp can swap adjacent items of different heights
near `maxBound`, and the de-collision step can preserve the inversion, so
the produced plan itself can violate the claim — see the counterexample.) -/
theorem C2_order_amended :
    (∀ rs : List Region, List.Pairwise (fun a b => a.y ≤ b.y) (solvedSideA rs)) ∧
      (∀ tops : List ℚ, List.Pairwise (fun a b : ℚ => a ≤ b) (gridSideB tops)) := by
  constructor
  · intro rs
    have hch : List.Chain' (gapR (spacingOf ((sideItemsSortedA rs).map Prod.snd)))
        (solvedSideA rs) := solvedA_chain _
    have hs := spacingOf_ge ((sideItemsSortedA rs).map Prod.snd)
    have hh := solvedSideA_h_ge rs
    have hyle : List.Chain' (fun a b => a.y ≤ b.y) (solvedSideA rs) := by
      refine chain'_imp_mem ?_ hch
      intro a ha b hb hab
      have ha' := hh a ha
      have hb' := hh b hb
      unfold gapR at hab
      have hL : (0 : ℚ) ≤ LABEL_HEIGHT := by norm_num [LABEL_HEIGHT]
      linarith
    exact chainY_pairwise hyle
  · intro tops
    have hch := gridSideB_chain tops
    have hle : List.Chain' (fun a b : ℚ => a ≤ b) (gridSideB tops) := by
      refine hch.imp ?_
      intro a b hab
      have hsp : (0 : ℚ) ≤ spacingB := by norm_num [spacingB]
      linarith
    haveI : IsTrans ℚ (fun a b : ℚ => a ≤ b) := ⟨fun _ _ _ h1 h2 => le_trans h1 h2⟩
    exact List.chain'_iff_pairwise.mp hle

/-- Counterexample for C2 as stated: four items at tops 8, 75.5, 76 and 94
(the last with a one-line detail text, height 9.7) produce label centers
15.5, 83, 88 and 87.15 — the third and fourth items have preferred centers
76 ≤ 94 but label centers 88 > 87.15, an inversion in the produced plan. -/
theorem C2_counterexample :
    (planSideA [⟨30, 8, none⟩, ⟨30, 75.5, none⟩, ⟨30, 76, none⟩,
        ⟨30, 94, some "abcdefghij"⟩]).map (fun p => (p.top, p.y)) =
      [(8, 31 / 2), (75.5, 83), (76, 88), (94, 1743 / 20)] ∧
      (76 : ℚ) ≤ 94 ∧ (1743 / 20 : ℚ) < 88 := by
  have hEst : estimateLabelHeight (some "abcdefghij") = 97 / 10 := by
    have h : cleanOf "abcdefghij" = "abcdefghij".data := rfl
    rw [estimateLabelHeight, h]
    rw [if_neg (by decide)]
    norm_num [LABEL_HEIGHT]
  refine ⟨?_, by norm_num, by norm_num⟩
  norm_num [planSideA, resolveSideA, solvedA, passesA, sideItemsSortedA, sortByTop, insertTop,
    regionItem, estimateLabelHeight_none, hEst, spacingOf, clampStep, decollideStep,
    decollideItem, decollidePush, underflowStep, overflowStep, forwardPass, fwdAux, fwdStep,
    backAux, bwdAux, bwdStep, backwardPass, shiftAll, initPt, clampCenterWithHeight,
    LABEL_HEIGHT, MIN_VERTICAL_SPACING, MIN_BOUND, MAX_BOUND, max_def, min_def, abs_lt]

/-- Claim C4: in `resolveSide`, if after the forward pass the last entry's
bottom edge `y + h/2` exceeds `maxBound`, every center is shifted up by the
same amount `bottom - maxBound` and the backward pass re-enforces spacing;
in the three-item scenario with tops 80, 85, 90 (heights 6.5, gap 6) the
forward pass pushes the last bottom to 108.25 > 92, and in the produced
plan no item exceeds `maxBound` or drops below `minBound`. -/
theorem C4_overflow_shift :
    (∀ (s : ℚ) (l : List Pt) (lastP : Pt),
        (forwardPass s l).getLast? = some lastP → MAX_BOUND < lastP.y + lastP.h / 2 →
          overflowStep s (forwardPass s l) =
            backwardPass s
              (shiftAll (MAX_BOUND - (lastP.y + lastP.h / 2)) (forwardPass s l))) ∧
      spacingOf ((sideItemsSortedA [⟨30, 80, none⟩, ⟨30, 85, none⟩, ⟨30, 90, none⟩]).map
          Prod.snd) = MIN_VERTICAL_SPACING ∧
      forwardPass MIN_VERTICAL_SPACING
          [initPt 80 (13 / 2), initPt 85 (13 / 2), initPt 90 (13 / 2)] =
        [⟨80, 13 / 2, 80⟩, ⟨85, 13 / 2, 185 / 2⟩, ⟨90, 13 / 2, 105⟩] ∧
      MAX_BOUND < (105 : ℚ) + 13 / 2 / 2 ∧
      (∀ p ∈ planSideA [⟨30, 80, none⟩, ⟨30, 85, none⟩, ⟨30, 90, none⟩],
        MIN_BOUND ≤ p.y ∧ p.y ≤ MAX_BOUND) := by
  refine ⟨?_, ?_, ?_, by norm_num [MAX_BOUND], ?_⟩
  · intro s l lastP hlast hover
    unfold overflowStep
    rw [hlast]
    dsimp only
    rw [if_pos hover]
  · norm_num [spacingOf, sideItemsSortedA, sortByTop, insertTop, regionItem,
      estimateLabelHeight_none, LABEL_HEIGHT, MIN_VERTICAL_SPACING, MAX_BOUND, MIN_BOUND]
  · norm_num [forwardPass, fwdAux, fwdStep, initPt, clampCenterWithHeight, MIN_BOUND,
      MAX_BOUND, MIN_VERTICAL_SPACING, max_def, Pt.mk.injEq]
  · have heval : planSideA [⟨30, 80, none⟩, ⟨30, 85, none⟩, ⟨30, 90, none⟩] =
        [⟨80, 13 / 2, 255 / 4⟩, ⟨85, 13 / 2, 305 / 4⟩, ⟨90, 13 / 2, 165 / 2⟩] := by
      norm_num [planSideA, resolveSideA, solvedA, passesA, sideItemsSortedA, sortByTop,
        insertTop, regionItem, estimateLabelHeight_none, spacingOf, clampStep, decollideStep,
        decollideItem, decollidePush, underflowStep, overflowStep, forwardPass, fwdAux, fwdStep,
        backAux, bwdAux, bwdStep, backwardPass, shiftAll, initPt, clampCenterWithHeight,
        LABEL_HEIGHT, MIN_VERTICAL_SPACING, MIN_BOUND, MAX_BOUND, max_def, min_def, abs_lt,
        Pt.mk.injEq]
    intro p hp
    rw [heval] at hp
    simp only [List.mem_cons, List.mem_singleton, List.not_mem_nil, or_false] at hp
    rcases hp with h | h | h <;> subst h <;> constructor <;> norm_num [MIN_BOUND, MAX_BOUND]

/-- Witness for C4: the three-item scenario's forward pass ends with bottom
edge 108.25 > 92, so the overflow branch fires and the result is the
backward pass of the uniformly shifted list. -/
theorem C4_witness :
    overflowStep MIN_VERTICAL_SPACING
        (forwardPass MIN_VERTICAL_SPACING
          [initPt 80 (13 / 2), initPt 85 (13 / 2), initPt 90 (13 / 2)]) =
      backwardPass MIN_VERTICAL_SPACING
        (shiftAll (MAX_BOUND - ((105 : ℚ) + 13 / 2 / 2))
          (forwardPass MIN_VERTICAL_SPACING
            [initPt 80 (13 / 2), initPt 85 (13 / 2), initPt 90 (13 / 2)])) := by
  have hfwd := C4_overflow_shift.2.2.1
  have hlast : (forwardPass MIN_VERTICAL_SPACING
      [initPt 80 (13 / 2), initPt 85 (13 / 2), initPt 90 (13 / 2)]).getLast? =
      some ⟨90, 13 / 2, 105⟩ := by
    rw [hfwd]
    rfl
  exact C4_overflow_shift.1 MIN_VERTICAL_SPACING
    [initPt 80 (13 / 2), initPt 85 (13 / 2), initPt 90 (13 / 2)] ⟨90, 13 / 2, 105⟩ hlast
    (by norm_num [MAX_BOUND])

/-- Claim C3 (amended): every produced label center is the result of the
final clamp, so whenever the item's own height is at most the span
(`84 = maxBound - minBound`) the center lies in
`[minBound + h/2, maxBound - h/2]`, and whenever the height is at most
twice the span (168) the center lies in `[minBound, maxBound]`.  (An item
taller than twice the span ends outside `[minBound, maxBound]` — see the
counterexample.) -/
theorem C3_bounds_amended (rs : List Region) (p : Pt) (hp : p ∈ planSideA rs) :
    (p.h ≤ 84 → MIN_BOUND + p.h / 2 ≤ p.y ∧ p.y ≤ MAX_BOUND - p.h / 2) ∧
      (p.h ≤ 168 → MIN_BOUND ≤ p.y ∧ p.y ≤ MAX_BOUND) := by
  obtain ⟨q, hq⟩ := planSideA_mem rs p hp
  have hy : p.y = clampCenterWithHeight (decollidePush q) q.h := by rw [hq]; rfl
  have hh : p.h = q.h := by rw [hq]; rfl
  have h0 : 0 ≤ p.h :=
    le_trans (by norm_num [LABEL_HEIGHT]) (planSideA_h_ge rs p hp)
  constructor
  · intro h84
    rw [hh] at h84
    rw [hy, hh]
    exact clampCWH_between _ _ h84
  · intro h168
    rw [hh] at h168
    rw [hh] at h0
    rw [hy]
    exact clampCWH_outer _ _ h0 h168

/-- Witness for C3: a lone item at top 50 with the base height 6.5 ends at
57.5, inside `[11.25, 88.75]`. -/
theorem C3_witness :
    MIN_BOUND + 13 / 2 / 2 ≤ (115 / 2 : ℚ) ∧ (115 / 2 : ℚ) ≤ MAX_BOUND - 13 / 2 / 2 := by
  have heval : planSideA [⟨30, 50, none⟩] = [⟨50, 13 / 2, 115 / 2⟩] := by
    norm_num [planSideA, resolveSideA, solvedA, passesA, sideItemsSortedA, sortByTop, insertTop,
      regionItem, estimateLabelHeight_none, spacingOf, clampStep, decollideStep, decollideItem,
      decollidePush, underflowStep, overflowStep, forwardPass, fwdAux, fwdStep, backAux, bwdAux,
      bwdStep, backwardPass, shiftAll, initPt, clampCenterWithHeight, LABEL_HEIGHT,
      MIN_VERTICAL_SPACING, MIN_BOUND, MAX_BOUND, max_def, min_def, abs_lt, Pt.mk.injEq]
  have hp : (⟨50, 13 / 2, 115 / 2⟩ : Pt) ∈ planSideA [⟨30, 50, none⟩] := by
    rw [heval]
    exact List.mem_singleton.2 rfl
  exact (C3_bounds_amended [⟨30, 50, none⟩] ⟨50, 13 / 2, 115 / 2⟩ hp).1 (by norm_num)

/-- Counterexample for C3 as stated: a lone item whose 1701-character
detail text yields height 169.7 > 168 ends with label center
92.85 > maxBound — the plan pushes it outside `[minBound, maxBound]`. -/
theorem C3_counterexample :
    (planSideA [⟨30, 50, some (String.mk (List.replicate 1701 'a'))⟩]).map
        (fun p => (p.h, p.y)) = [(1697 / 10, 1857 / 20)] ∧
      MAX_BOUND < (1857 / 20 : ℚ) := by
  have hws : ∀ c ∈ List.replicate 1701 'a', c.isWhitespace = false := by
    intro c hc
    rw [List.eq_of_mem_replicate hc]
    rfl
  have hclean : cleanOf (String.mk (List.replicate 1701 'a')) = List.replicate 1701 'a' := by
    show trimWs (collapseWs (List.replicate 1701 'a')) = List.replicate 1701 'a'
    unfold collapseWs
    rw [collapseAux_no_ws _ _ hws, trimWs_no_ws _ hws]
  have hEst : estimateLabelHeight (some (String.mk (List.replicate 1701 'a'))) = 1697 / 10 := by
    simp only [estimateLabelHeight, hclean]
    rw [if_neg (by simp), List.length_replicate]
    norm_num [LABEL_HEIGHT]
  refine ⟨?_, by norm_num [MAX_BOUND]⟩
  norm_num [planSideA, resolveSideA, solvedA, passesA, sideItemsSortedA, sortByTop, insertTop,
    regionItem, hEst, spacingOf, clampStep, decollideStep, decollideItem, decollidePush,
    underflowStep, overflowStep, forwardPass, fwdAux, fwdStep, backAux, bwdAux, bwdStep,
    backwardPass, shiftAll, initPt, clampCenterWithHeight, LABEL_HEIGHT, MIN_VERTICAL_SPACING,
    MIN_BOUND, MAX_BOUND, max_def, min_def, abs_lt]

/-- Claim C5 (amended): every produced label ends at least the base label
height 6.5 away from its source y — the de-collision push moves a too-close
label to exactly `baseLabelHeight + 1` away on the side it diverged,
defaulting downward on an exact tie — except when the final re-clamp pinned
the label to a bound (`minBound + h/2` or `maxBound - h/2`), in which case
the separation can collapse; the distance is compared against the constant
6.5, not the item's own (possibly larger) dynamic height. -/
theorem C5_separation_amended (rs : List Region) (p : Pt) (hp : p ∈ planSideA rs) :
    LABEL_HEIGHT ≤ |p.y - p.top| ∨ p.y = MIN_BOUND + p.h / 2 ∨
      p.y = MAX_BOUND - p.h / 2 := by
  obtain ⟨q, hq⟩ := planSideA_mem rs p hp
  have hy : p.y = clampCenterWithHeight (decollidePush q) q.h := by rw [hq]; rfl
  have htop : p.top = q.top := by rw [hq]; rfl
  have hh : p.h = q.h := by rw [hq]; rfl
  rcases clampCWH_cases (decollidePush q) q.h with hc | hc | hc
  · right; left; rw [hy, hh, hc]
  · right; right; rw [hy, hh, hc]
  · left
    rw [hy, hc, htop]
    unfold decollidePush
    split_ifs with h1 h2
    · have he : q.top - LABEL_HEIGHT - 1 - q.top = -(LABEL_HEIGHT + 1) := by ring
      rw [he, abs_neg, abs_of_nonneg (by norm_num [LABEL_HEIGHT])]
      norm_num [LABEL_HEIGHT]
    · have he : q.top + LABEL_HEIGHT + 1 - q.top = LABEL_HEIGHT + 1 := by ring
      rw [he, abs_of_nonneg (by norm_num [LABEL_HEIGHT])]
      norm_num [LABEL_HEIGHT]
    · push_neg at h1
      exact h1

/-- Witness for C5: the lone item at top 50 ends at 57.5, which is
7.5 ≥ 6.5 away from its source. -/
theorem C5_witness :
    LABEL_HEIGHT ≤ |(115 / 2 : ℚ) - 50| ∨ (115 / 2 : ℚ) = MIN_BOUND + 13 / 2 / 2 ∨
      (115 / 2 : ℚ) = MAX_BOUND - 13 / 2 / 2 := by
  have heval : planSideA [⟨30, 50, none⟩] = [⟨50, 13 / 2, 115 / 2⟩] := by
    norm_num [planSideA, resolveSideA, solvedA, passesA, sideItemsSortedA, sortByTop, insertTop,
      regionItem, estimateLabelHeight_none, spacingOf, clampStep, decollideStep, decollideItem,
      decollidePush, underflowStep, overflowStep, forwardPass, fwdAux, fwdStep, backAux, bwdAux,
      bwdStep, backwardPass, shiftAll, initPt, clampCenterWithHeight, LABEL_HEIGHT,
      MIN_VERTICAL_SPACING, MIN_BOUND, MAX_BOUND, max_def, min_def, abs_lt, Pt.mk.injEq]
  have hp : (⟨50, 13 / 2, 115 / 2⟩ : Pt) ∈ planSideA [⟨30, 50, none⟩] := by
    rw [heval]
    exact List.mem_singleton.2 rfl
  exact C5_separation_amended [⟨30, 50, none⟩] ⟨50, 13 / 2, 115 / 2⟩ hp

/-- Counterexample for C5 as stated: a lone item at top 88.75 (height 6.5)
is clamped to 88.75, pushed down to 96.25 by the de-collision step and then
re-clamped straight back to 88.75: its label center coincides with its
source, `|labelCenter - preferredCenter| = 0 < 6.5 = height`. -/
theorem C5_counterexample :
    (planSideA [⟨30, 88.75, none⟩]).map (fun p => (p.top, p.h, p.y)) =
      [(88.75, 13 / 2, 355 / 4)] ∧ |(355 / 4 : ℚ) - 88.75| < 13 / 2 := by
  constructor
  · norm_num [planSideA, resolveSideA, solvedA, passesA, sideItemsSortedA, sortByTop, insertTop,
      regionItem, estimateLabelHeight_none, spacingOf, clampStep, decollideStep, decollideItem,
      decollidePush, underflowStep, overflowStep, forwardPass, fwdAux, fwdStep, backAux, bwdAux,
      bwdStep, backwardPass, shiftAll, initPt, clampCenterWithHeight, LABEL_HEIGHT,
      MIN_VERTICAL_SPACING, MIN_BOUND, MAX_BOUND, max_def, min_def, abs_lt]
  · norm_num

/-- Claim C8: the layout engine does not fail on degenerate input: with no
active regions each solver returns the empty list and the whole plan is
empty; a single item is handled by the spacing solver as a bare clamp (its
height fitting the span); and regions without a resolvable source point are
dropped by the collection step without affecting the plan of the others. -/
theorem C8_degenerate_and_unresolved :
    fullPlanA [] = [] ∧ resolveSideA [] = [] ∧ gridSideB [] = [] ∧
      (∀ t h : ℚ, h ≤ 84 → resolveSideA [(t, h)] = [⟨t, h, clampCenterWithHeight t h⟩]) ∧
      (∀ raw : List RawRegion,
        fullPlanA raw = fullPlanA (raw.filter fun r => r.pos.isSome)) := by
  refine ⟨rfl, rfl, rfl, resolveSideA_singleton, ?_⟩
  intro raw
  unfold fullPlanA
  rw [← collectA_filter]

/-- Witness for C8: a single item at top 50 with height 6.5 is merely
clamped by the spacing solver, and an unresolvable region is dropped
without changing the plan. -/
theorem C8_witness :
    resolveSideA [(50, 13 / 2)] = [⟨50, 13 / 2, clampCenterWithHeight 50 (13 / 2)⟩] ∧
      fullPlanA [⟨none, none⟩, ⟨some (30, 50), none⟩] =
        fullPlanA ([⟨none, none⟩, ⟨some (30, 50), none⟩].filter fun r => r.pos.isSome) :=
  ⟨C8_degenerate_and_unresolved.2.2.2.1 50 (13 / 2) (by norm_num),
    C8_degenerate_and_unresolved.2.2.2.2 [⟨none, none⟩, ⟨some (30, 50), none⟩]⟩
